import Mathlib

/-!
Verification of the LC-3 assembler core (`src/main.rs`).

Strings are modelled as `List Char` (a token is a borrowed substring of
the input line). Machine integers are modelled as `Nat` / `Int` with
explicit `% 2 ^ w` masking exactly where Rust's fixed-width arithmetic
wraps. A Rust `Result` is an `Except`; the `.unwrap()` calls on the
numeric-literal parsers are modelled by an explicit `panic` outcome of
the `PResult` type, so that the parse stage is a total Lean function.
-/

namespace LC3

/-- A token: a run of characters cut out of the input line. -/
abbrev Token := List Char

/-- Result type for the parse stage. `ok` and `err` model Rust's
`Result::Ok` / `Result::Err`; `panic` models a Rust panic, which in
`parse` can arise only from `.unwrap()` on a failed numeric parse. -/
inductive PResult (α : Type) where
  | ok : α → PResult α
  | err : String → PResult α
  | panic : PResult α
deriving DecidableEq, Repr

instance {ε α : Type} [DecidableEq ε] [DecidableEq α] : DecidableEq (Except ε α)
  | .ok a, .ok b => if h : a = b then .isTrue (by rw [h]) else .isFalse (by simp [h])
  | .ok _, .error _ => .isFalse (by simp)
  | .error _, .ok _ => .isFalse (by simp)
  | .error e, .error f => if h : e = f then .isTrue (by rw [h]) else .isFalse (by simp [h])

/-- Rust `char::to_digit(10)`: the numeric value of a decimal digit. -/
def to_digit10 (c : Char) : Option Nat :=
  if '0' ≤ c ∧ c ≤ '9' then some (c.toNat - '0'.toNat) else none

/-- Decimal value of a digit string: `some` the accumulated value if every
character is a decimal digit (vacuously `some 0` on the empty list). -/
def decDigitsVal (s : List Char) : Option Nat :=
  s.foldl
    (fun acc c =>
      match acc, to_digit10 c with
      | some n, some d => some (10 * n + d)
      | _, _ => none)
    (some 0)

/-- Modelled from the spec: `parse_uint::<T>` of the external `num_parse`
crate is not vendored under `src/`. Per the spec, unsigned fields are
"parsed as unsigned decimal integers in range" and this parser performs
"unsigned parsing" as opposed to the "signed parsing" of `parse_int`:
a non-empty all-decimal-digit token whose value fits the Rust target
type's range `[0, hi]`; anything else (including a leading minus sign)
yields `none`. -/
def parse_uint (hi : Int) (s : Token) : Option Int :=
  match s with
  | [] => none
  | _ :: _ =>
    match decDigitsVal s with
    | some n => if (n : Int) ≤ hi then some (n : Int) else none
    | none => none

/-- Modelled from the spec: `parse_int::<T>` of the external `num_parse`
crate is not vendored under `src/`. Per the spec, signed fields are
"parsed as signed decimal integers": an optional leading minus sign
followed by one or more decimal digits, with the value required to fit
the Rust target type's range `[lo, hi]`; anything else yields `none`. -/
def parse_int (lo hi : Int) (s : Token) : Option Int :=
  match s with
  | '-' :: rest =>
    (match rest, decDigitsVal rest with
     | _ :: _, some n =>
        if lo ≤ -(n : Int) ∧ -(n : Int) ≤ hi then some (-(n : Int)) else none
     | _, _ => none)
  | _ :: _ =>
    (match decDigitsVal s with
     | some n => if lo ≤ (n : Int) ∧ (n : Int) ≤ hi then some (n : Int) else none
     | none => none)
  | [] => none

/-- `parse_uint::<i8>` as used for the add/and immediate operand. -/
def parse_uint_i8 (s : Token) : Option Int := parse_uint 127 s

/-- `parse_uint::<i16>` as used for the ldi offset. -/
def parse_uint_i16 (s : Token) : Option Int := parse_uint 32767 s

/-- `parse_uint::<u8>` as used for the trap vector. -/
def parse_uint_u8 (s : Token) : Option Int := parse_uint 255 s

/-- `parse_int::<i8>` as used for the ldr/str 6-bit offsets. -/
def parse_int_i8 (s : Token) : Option Int := parse_int (-128) 127 s

/-- `parse_int::<i16>` as used for the 9-bit and 11-bit offsets. -/
def parse_int_i16 (s : Token) : Option Int := parse_int (-32768) 32767 s

/-- The 17 instruction mnemonics of `enum Instruction`. -/
inductive Instruction where
  | Add
  | And
  | Branch
  | Jump
  | JumpSubroutine
  | JumpSubroutineRegister
  | Load
  | LoadIndirect
  | LoadRegister
  | LoadEffectiveAddress
  | Not
  | Return
  | ReturnInterrupt
  | Store
  | StoreIndirect
  | StoreRegister
  | Trap
deriving DecidableEq, Repr

namespace Instruction

/-- `Instruction::binary`: the 4-bit opcode of each mnemonic. -/
def binary : Instruction → Nat
  | .Add => 0b0001
  | .And => 0b0101
  | .Branch => 0b0000
  | .Jump => 0b1100
  | .JumpSubroutine => 0b0100
  | .JumpSubroutineRegister => 0b0100
  | .Load => 0b0010
  | .LoadIndirect => 0b0010
  | .LoadRegister => 0b0110
  | .LoadEffectiveAddress => 0b1110
  | .Not => 0b1001
  | .Return => 0b1100
  | .ReturnInterrupt => 0b1100
  | .Store => 0b0011
  | .StoreIndirect => 0b0011
  | .StoreRegister => 0b0111
  | .Trap => 0b1111

/-- `Instruction::num_args`: the operand arity of each mnemonic. -/
def num_args : Instruction → Nat
  | .Add => 3
  | .And => 3
  | .Branch => 2
  | .Jump => 1
  | .JumpSubroutine => 1
  | .JumpSubroutineRegister => 1
  | .Load => 2
  | .LoadIndirect => 2
  | .LoadRegister => 3
  | .LoadEffectiveAddress => 2
  | .Not => 2
  | .Return => 0
  | .ReturnInterrupt => 0
  | .Store => 2
  | .StoreIndirect => 2
  | .StoreRegister => 3
  | .Trap => 1

/-- `impl TryFrom<&str> for Instruction`: keyword classification. -/
def tryFrom (s : Token) : Except String Instruction :=
  if s = "add".toList then .ok .Add
  else if s = "and".toList then .ok .And
  else if s = "br".toList then .ok .Branch
  else if s = "jmp".toList then .ok .Jump
  else if s = "jsr".toList then .ok .JumpSubroutine
  else if s = "jsrr".toList then .ok .JumpSubroutineRegister
  else if s = "ld".toList then .ok .Load
  else if s = "ldi".toList then .ok .LoadIndirect
  else if s = "ldr".toList then .ok .LoadRegister
  else if s = "lea".toList then .ok .LoadEffectiveAddress
  else if s = "not".toList then .ok .Not
  else if s = "ret".toList then .ok .Return
  else if s = "rti".toList then .ok .ReturnInterrupt
  else if s = "st".toList then .ok .Store
  else if s = "sti".toList then .ok .StoreIndirect
  else if s = "str".toList then .ok .StoreRegister
  else if s = "trap".toList then .ok .Trap
  else .error "Invalid instruction"

end Instruction

/-- The operand records of `enum InstructionData`. Register fields are
`Nat` (Rust `u8`), signed immediate/offset fields are `Int` (Rust
`i8`/`i16`), the condition mask and trap vector are `Nat`. -/
inductive InstructionData where
  | Add (dr sr1 sr2 : Nat)
  | AddImmediate (dr sr1 : Nat) (imm5 : Int)
  | And (dr sr1 sr2 : Nat)
  | AndImmediate (dr sr1 : Nat) (imm5 : Int)
  | Branch (nzp : Nat) (pc_offset9 : Int)
  | Jump (base_r : Nat)
  | JumpSubroutine (pc_offset11 : Int)
  | JumpSubroutineRegister (base_r : Nat)
  | Load (dr : Nat) (pc_offset9 : Int)
  | LoadIndirect (dr : Nat) (pc_offset9 : Int)
  | LoadRegister (dr base_r : Nat) (offset6 : Int)
  | LoadEffectiveAddress (dr : Nat) (pc_offset9 : Int)
  | Not (dr sr : Nat)
  | Return
  | ReturnInterrupt
  | Store (sr : Nat) (pc_offset9 : Int)
  | StoreIndirect (sr : Nat) (pc_offset9 : Int)
  | StoreRegister (sr base_r : Nat) (offset6 : Int)
  | Trap (trapvect8 : Int)
deriving DecidableEq, Repr

/-- Rust `as u16` on a signed value: two's-complement conversion. -/
def toU16 (i : Int) : Nat := (i % 65536).toNat

/-- Rust `u16` wrapping of a shift result. -/
def mask16 (n : Nat) : Nat := n % 65536

namespace InstructionData

/-- `InstructionData::binary`: the low 12 bits of the encoded word. -/
def binary : InstructionData → Nat
  | .Add dr sr1 sr2 => mask16 (dr <<< 9) ||| mask16 (sr1 <<< 6) ||| sr2
  | .AddImmediate dr sr1 imm5 =>
      mask16 (dr <<< 9) ||| mask16 (sr1 <<< 6) ||| 1 <<< 5 ||| (toU16 imm5 &&& (1 <<< 5 - 1))
  | .And dr sr1 sr2 => mask16 (dr <<< 9) ||| mask16 (sr1 <<< 6) ||| sr2
  | .AndImmediate dr sr1 imm5 =>
      mask16 (dr <<< 9) ||| mask16 (sr1 <<< 6) ||| 1 <<< 5 ||| (toU16 imm5 &&& (1 <<< 5 - 1))
  | .Branch nzp pc_offset9 =>
      mask16 (nzp <<< 9) ||| (toU16 pc_offset9 &&& (1 <<< 9 - 1))
  | .Jump base_r => mask16 (base_r <<< 6)
  | .JumpSubroutine pc_offset11 => 1 <<< 11 ||| (toU16 pc_offset11 &&& (1 <<< 11 - 1))
  | .JumpSubroutineRegister base_r => mask16 (base_r <<< 6)
  | .Load dr pc_offset9 => mask16 (dr <<< 9) ||| (toU16 pc_offset9 &&& (1 <<< 9 - 1))
  | .LoadIndirect dr pc_offset9 => mask16 (dr <<< 9) ||| (toU16 pc_offset9 &&& (1 <<< 9 - 1))
  | .LoadRegister dr base_r offset6 =>
      mask16 (dr <<< 9) ||| mask16 (base_r <<< 6) ||| (toU16 offset6 &&& (1 <<< 6 - 1))
  | .LoadEffectiveAddress dr pc_offset9 =>
      mask16 (dr <<< 9) ||| (toU16 pc_offset9 &&& (1 <<< 9 - 1))
  | .Not dr sr => mask16 (dr <<< 9) ||| mask16 (sr <<< 6) ||| 0b111111
  | .Return => 0b000111000000
  | .ReturnInterrupt => 0b000000000000
  | .Store sr pc_offset9 => mask16 (sr <<< 9) ||| (toU16 pc_offset9 &&& (1 <<< 9 - 1))
  | .StoreIndirect sr pc_offset9 => mask16 (sr <<< 9) ||| (toU16 pc_offset9 &&& (1 <<< 9 - 1))
  | .StoreRegister sr base_r offset6 =>
      mask16 (sr <<< 9) ||| mask16 (base_r <<< 6) ||| (toU16 offset6 &&& (1 <<< 6 - 1))
  | .Trap trapvect8 => toU16 trapvect8

end InstructionData

/-- `fn parse_register`: first character must be `r` or `R`, second must
be a decimal digit below 8; the digit is the register index. Characters
after the second are never examined. -/
def parse_register (s : Token) : Except String Nat :=
  match s with
  | c0 :: c1 :: _ =>
    if c0 = 'r' ∨ c0 = 'R' then
      match to_digit10 c1 with
      | some register => if register < 8 then .ok register else .error "Invalid register"
      | none => .error "Invalid register"
    else .error "Invalid register"
  | _ => .error "Invalid register"

/-- The `?` operator on a register parse inside the operand match:
an `Err` short-circuits to the same structural error. -/
def regBind (t : Token) (k : Nat → PResult InstructionData) : PResult InstructionData :=
  match parse_register t with
  | .ok r => k r
  | .error e => .err e

/-- `.unwrap()` on a numeric-literal parse: `None` panics. -/
def unwrapBind (o : Option Int) (k : Int → PResult InstructionData) :
    PResult InstructionData :=
  match o with
  | some v => k v
  | none => .panic

/-- The condition-flag mask computed by the `Instruction::Branch` arm:
each of the characters `n`, `z`, `p` occurring anywhere in the token
sets its bit. -/
def branchNzp (t : Token) : Nat :=
  (if t.contains 'n' then 0b100 else 0) |||
  (if t.contains 'z' then 0b010 else 0) |||
  (if t.contains 'p' then 0b001 else 0)

/-- The `match instruction` block of `fn parse` that builds the
`InstructionData` record from the operand tokens (already past the
mnemonic; indexing is guarded by the caller's arity check). -/
def parseData (instruction : Instruction) (args : List Token) : PResult InstructionData :=
  match instruction with
  | .Add =>
    regBind (args.getD 0 []) fun dr =>
    regBind (args.getD 1 []) fun sr1 =>
      match parse_register (args.getD 2 []) with
      | .ok sr2 => .ok (.Add dr sr1 sr2)
      | .error _ =>
        unwrapBind (parse_uint_i8 (args.getD 2 [])) fun imm5 =>
          .ok (.AddImmediate dr sr1 imm5)
  | .And =>
    regBind (args.getD 0 []) fun dr =>
    regBind (args.getD 1 []) fun sr1 =>
      match parse_register (args.getD 2 []) with
      | .ok sr2 => .ok (.And dr sr1 sr2)
      | .error _ =>
        unwrapBind (parse_uint_i8 (args.getD 2 [])) fun imm5 =>
          .ok (.AndImmediate dr sr1 imm5)
  | .Branch =>
    unwrapBind (parse_int_i16 (args.getD 1 [])) fun pc_offset9 =>
      .ok (.Branch (branchNzp (args.getD 0 [])) pc_offset9)
  | .Jump =>
    regBind (args.getD 0 []) fun base_r => .ok (.Jump base_r)
  | .JumpSubroutine =>
    unwrapBind (parse_int_i16 (args.getD 0 [])) fun pc_offset11 =>
      .ok (.JumpSubroutine pc_offset11)
  | .JumpSubroutineRegister =>
    regBind (args.getD 0 []) fun base_r => .ok (.JumpSubroutineRegister base_r)
  | .Load =>
    regBind (args.getD 0 []) fun dr =>
    unwrapBind (parse_int_i16 (args.getD 1 [])) fun pc_offset9 =>
      .ok (.Load dr pc_offset9)
  | .LoadIndirect =>
    regBind (args.getD 0 []) fun dr =>
    unwrapBind (parse_uint_i16 (args.getD 1 [])) fun pc_offset9 =>
      .ok (.LoadIndirect dr pc_offset9)
  | .LoadRegister =>
    regBind (args.getD 0 []) fun dr =>
    regBind (args.getD 1 []) fun base_r =>
    unwrapBind (parse_int_i8 (args.getD 2 [])) fun offset6 =>
      .ok (.LoadRegister dr base_r offset6)
  | .LoadEffectiveAddress =>
    regBind (args.getD 0 []) fun dr =>
    unwrapBind (parse_int_i16 (args.getD 1 [])) fun pc_offset9 =>
      .ok (.LoadEffectiveAddress dr pc_offset9)
  | .Not =>
    regBind (args.getD 0 []) fun dr =>
    regBind (args.getD 1 []) fun sr => .ok (.Not dr sr)
  | .Return => .ok .Return
  | .ReturnInterrupt => .ok .ReturnInterrupt
  | .Store =>
    regBind (args.getD 0 []) fun sr =>
    unwrapBind (parse_int_i16 (args.getD 1 [])) fun pc_offset9 =>
      .ok (.Store sr pc_offset9)
  | .StoreIndirect =>
    regBind (args.getD 0 []) fun sr =>
    unwrapBind (parse_int_i16 (args.getD 1 [])) fun pc_offset9 =>
      .ok (.StoreIndirect sr pc_offset9)
  | .StoreRegister =>
    regBind (args.getD 0 []) fun sr =>
    regBind (args.getD 1 []) fun base_r =>
    unwrapBind (parse_int_i8 (args.getD 2 [])) fun offset6 =>
      .ok (.StoreRegister sr base_r offset6)
  | .Trap =>
    unwrapBind (parse_uint_u8 (args.getD 0 [])) fun trapvect8 =>
      .ok (.Trap trapvect8)

/-- `fn parse`: classify the first token, advance past it, check arity,
build the operand record, and on success advance past exactly
`num_args` operand tokens. The returned list is the final value of the
`&mut &[&str]` argument (i.e. the tokens not yet consumed). -/
def parse (args : List Token) : PResult (Instruction × InstructionData) × List Token :=
  match args with
  | [] => (.err "No instruction", args)
  | a0 :: rest =>
    match Instruction.tryFrom a0 with
    | .error e => (.err e, args)
    | .ok instruction =>
      if instruction.num_args > rest.length then
        (.err "Invalid number of arguments", rest)
      else
        match parseData instruction rest with
        | .ok d => (.ok (instruction, d), rest.drop instruction.num_args)
        | .err e => (.err e, rest)
        | .panic => (.panic, rest)

/-- Rust `char::is_whitespace`: the Unicode `White_Space` property,
listed by code point. -/
def rustIsWhitespace (c : Char) : Bool :=
  (0x9 ≤ c.toNat && c.toNat ≤ 0xD) || c.toNat = 0x20 || c.toNat = 0x85 ||
  c.toNat = 0xA0 || c.toNat = 0x1680 ||
  (0x2000 ≤ c.toNat && c.toNat ≤ 0x200A) ||
  c.toNat = 0x2028 || c.toNat = 0x2029 || c.toNat = 0x202F ||
  c.toNat = 0x205F || c.toNat = 0x3000

/-- The tokenizer's delimiter test: `c.is_whitespace() || c == ','`. -/
def isDelim (c : Char) : Bool := rustIsWhitespace c || c = ','

/-- Total UTF-8 byte length of a character sequence. -/
def utf8Len (l : List Char) : Nat := (l.map Char.utf8Size).sum

/-- Decode the suffix of a UTF-8 string starting at byte offset `pos`:
`some` the remaining characters when `pos` is a character boundary no
larger than the byte length, `none` otherwise — the situations in
which Rust's byte-index slicing of a `&str` panics. -/
def byteSuffix : List Char → Nat → Option (List Char)
  | l, 0 => some l
  | [], _ + 1 => none
  | c :: cs, pos + 1 =>
    if c.utf8Size ≤ pos + 1 then byteSuffix cs (pos + 1 - c.utf8Size) else none

/-- Take exactly `n` bytes worth of characters from the front of a
UTF-8 string: `some` those characters when byte offset `n` is a
character boundary within the string, `none` otherwise — again the
situations in which Rust's byte-index slicing panics. -/
def bytePrefix : List Char → Nat → Option (List Char)
  | _, 0 => some []
  | [], _ + 1 => none
  | c :: cs, n + 1 =>
    if c.utf8Size ≤ n + 1 then (bytePrefix cs (n + 1 - c.utf8Size)).map (c :: ·) else none

/-- `struct Tokenizer`: the input buffer and the cursor into it.
`pos` indexes **bytes** of the UTF-8 input (Rust `self.pos: usize`
used to slice the `&str`), not characters. -/
structure Tokenizer where
  input : List Char
  pos : Nat
deriving DecidableEq, Repr

/-- One step of the tokenizer: a token, exhaustion, or a panic from a
byte-index slice that does not land on character boundaries. -/
inductive TokStep where
  | tok : List Char → Tokenizer → TokStep
  | done : Tokenizer → TokStep
  | panic : TokStep
deriving DecidableEq, Repr

/-- The `while let Some(c) = chars.next()` loop body of
`Tokenizer::next`, iterating over the characters after the cursor:
a delimiter before any token character advances `pos` by one **byte**
(`self.pos += 1`, whatever the delimiter's UTF-8 width); a delimiter
after at least one token character stops the scan; a token character
increments the **character** count. Returns the final `(pos, count)`. -/
def tokLoop : List Char → Nat → Nat → Nat × Nat
  | [], pos, count => (pos, count)
  | c :: cs, pos, count =>
    if isDelim c then
      if count > 0 then (pos, count) else tokLoop cs (pos + 1) count
    else
      tokLoop cs pos (count + 1)

/-- `Tokenizer::next`: decode the characters after the byte cursor
(`&self.input[self.pos..]`, panicking off a character boundary), run
the scan loop, and if at least one token character was seen slice
`&self.input[pos..pos + count]` — a byte range whose width is the
**character** count, panicking unless both ends are character
boundaries — then move the cursor past it. -/
def Tokenizer.next (t : Tokenizer) : TokStep :=
  match byteSuffix t.input t.pos with
  | none => .panic
  | some suffix =>
    let pc := tokLoop suffix t.pos 0
    if pc.2 > 0 then
      match byteSuffix t.input pc.1 with
      | none => .panic
      | some s0 =>
        match bytePrefix s0 pc.2 with
        | none => .panic
        | some s => .tok s ⟨t.input, pc.1 + pc.2⟩
    else .done ⟨t.input, pc.1⟩

/-- The outcome of collecting the tokenizer's output as `main` does:
the token list, or a panic if any step panics. -/
inductive TokensResult where
  | ok : List (List Char) → TokensResult
  | panic : TokensResult
deriving DecidableEq, Repr

/-- Iterate `Tokenizer::next` to exhaustion, collecting the tokens
(fuel-bounded; `utf8Len input + 1` steps always suffice). -/
def tokenizeAux : Nat → Tokenizer → TokensResult
  | 0, _ => .ok []
  | fuel + 1, t =>
    match t.next with
    | .done _ => .ok []
    | .panic => .panic
    | .tok s next =>
      match tokenizeAux fuel next with
      | .ok ts => .ok (s :: ts)
      | .panic => .panic

/-- The result of running the tokenizer over an input. -/
def tokenize (input : List Char) : TokensResult :=
  tokenizeAux (utf8Len input + 1) ⟨input, 0⟩

/-- Maximal runs of characters not satisfying `p`, scanning left to
right: characters satisfying `p` collapse, every other character starts
or continues a maximal run. -/
def tokSpec (p : Char → Bool) : List Char → List (List Char)
  | [] => []
  | c :: cs =>
    if p c then tokSpec p cs
    else (c :: cs.takeWhile (fun x => !p x)) :: tokSpec p (cs.dropWhile (fun x => !p x))
termination_by l => l.length
decreasing_by
  · simp
  · simpa using Nat.lt_succ_of_le ((List.dropWhile_suffix (fun x => !p x)).length_le)

/-- The specification of the tokenizer, following the spec's words:
the maximal runs of characters that are neither whitespace nor the
comma, in left-to-right order. -/
def specTokens : List Char → List (List Char) := tokSpec isDelim

/-! ## Helper lemmas about the operand parser -/

theorem parse_register_error {s : Token} {e : String}
    (h : parse_register s = .error e) : e = "Invalid register" := by
  rcases s with _ | ⟨c0, _ | ⟨c1, rest⟩⟩ <;>
    simp only [parse_register] at h <;>
    (repeat' split at h) <;>
    simp_all

theorem parseData_err {i : Instruction} {a : List Token} {e : String}
    (h : parseData i a = .err e) : e = "Invalid register" := by
  cases i <;>
    simp only [parseData, regBind, unwrapBind] at h <;>
    (repeat' split at h) <;>
    first
      | exact PResult.noConfusion h
      | (simp only [PResult.err.injEq] at h
         subst h
         exact parse_register_error (by assumption))

/-! ## Helper lemmas about the tokenizer -/

theorem drop_length_takeWhile (p : Char → Bool) (l : List Char) :
    l.drop (l.takeWhile p).length = l.dropWhile p := by
  have h := List.drop_left (l.takeWhile p) (l.dropWhile p)
  rwa [List.takeWhile_append_dropWhile] at h

theorem take_length_takeWhile (p : Char → Bool) (l : List Char) :
    l.take (l.takeWhile p).length = l.takeWhile p := by
  have h := List.take_left (l.takeWhile p) (l.dropWhile p)
  rwa [List.takeWhile_append_dropWhile] at h

theorem dropWhile_head_false {p : Char → Bool} {l : List Char} {c : Char} {cs : List Char}
    (h : l.dropWhile p = c :: cs) : p c = false := by
  induction l with
  | nil => simp at h
  | cons a as ih =>
    rw [List.dropWhile_cons] at h
    by_cases hp : p a = true
    · exact ih (by simpa [hp] using h)
    · simp only [hp, if_false] at h
      injection h with h1 h2
      subst h1
      simpa using hp

theorem tokLoop_pos (l : List Char) (pos count : Nat) (h : 0 < count) :
    tokLoop l pos count = (pos, count + (l.takeWhile (fun x => !isDelim x)).length) := by
  induction l generalizing count with
  | nil => simp [tokLoop]
  | cons c cs ih =>
    by_cases hc : isDelim c
    · simp [tokLoop, hc, h, List.takeWhile_cons]
    · simp only [tokLoop, hc, if_false, List.takeWhile_cons, Bool.not_eq_true', hc]
      rw [ih (count + 1) (by omega)]
      simp [hc]
      omega

theorem tokLoop_zero (l : List Char) (pos : Nat) :
    tokLoop l pos 0 =
      (pos + (l.takeWhile isDelim).length,
        ((l.dropWhile isDelim).takeWhile (fun x => !isDelim x)).length) := by
  induction l generalizing pos with
  | nil => simp [tokLoop]
  | cons c cs ih =>
    by_cases hc : isDelim c
    · rw [tokLoop]
      simp only [hc, if_true, List.takeWhile_cons, List.dropWhile_cons]
      rw [ih (pos + 1)]
      simp [hc]
      omega
    · rw [tokLoop]
      simp only [hc, if_false, List.takeWhile_cons, List.dropWhile_cons]
      rw [tokLoop_pos cs pos 1 (by omega)]
      simp [hc]
      omega

theorem utf8Len_ascii {l : List Char} (h : ∀ c ∈ l, c.utf8Size = 1) :
    utf8Len l = l.length := by
  induction l with
  | nil => rfl
  | cons c cs ih =>
    have hc : c.utf8Size = 1 := h c (by simp)
    have ihl := ih (fun x hx => h x (by simp [hx]))
    simp only [utf8Len, List.map_cons, List.sum_cons, List.length_cons] at ihl ⊢
    omega

theorem byteSuffix_ascii :
    ∀ (l : List Char), (∀ c ∈ l, c.utf8Size = 1) →
      ∀ pos, pos ≤ l.length → byteSuffix l pos = some (l.drop pos) := by
  intro l
  induction l with
  | nil =>
    intro _ pos hpos
    have hp : pos = 0 := by simpa using hpos
    subst hp
    rfl
  | cons c cs ih =>
    intro h pos hpos
    cases pos with
    | zero => rfl
    | succ p =>
      have hc : c.utf8Size = 1 := h c (by simp)
      show (if c.utf8Size ≤ p + 1 then byteSuffix cs (p + 1 - c.utf8Size) else none) = _
      rw [hc, if_pos (by omega), Nat.add_sub_cancel, List.drop_succ_cons]
      exact ih (fun x hx => h x (by simp [hx])) p (by simpa using hpos)

theorem bytePrefix_ascii :
    ∀ (l : List Char), (∀ c ∈ l, c.utf8Size = 1) →
      ∀ n, n ≤ l.length → bytePrefix l n = some (l.take n) := by
  intro l
  induction l with
  | nil =>
    intro _ n hn
    have hz : n = 0 := by simpa using hn
    subst hz
    rfl
  | cons c cs ih =>
    intro h n hn
    cases n with
    | zero => rfl
    | succ m =>
      have hc : c.utf8Size = 1 := h c (by simp)
      show (if c.utf8Size ≤ m + 1 then
        (bytePrefix cs (m + 1 - c.utf8Size)).map (c :: ·) else none) = _
      rw [hc, if_pos (by omega), Nat.add_sub_cancel,
        ih (fun x hx => h x (by simp [hx])) m (by simpa using hn)]
      rfl

theorem tokenizer_next_done (input : List Char) (pos : Nat)
    (hA : ∀ c ∈ input, c.utf8Size = 1) (hpos : pos ≤ input.length)
    (h : (input.drop pos).dropWhile isDelim = []) :
    Tokenizer.next ⟨input, pos⟩ =
      .done ⟨input, pos + ((input.drop pos).takeWhile isDelim).length⟩ := by
  simp [Tokenizer.next, byteSuffix_ascii input hA pos hpos, tokLoop_zero, h]

theorem tokenizer_next_tok (input : List Char) (pos : Nat) (c : Char) (cs : List Char)
    (hA : ∀ x ∈ input, x.utf8Size = 1) (hpos : pos ≤ input.length)
    (h : (input.drop pos).dropWhile isDelim = c :: cs) :
    Tokenizer.next ⟨input, pos⟩ =
      .tok ((c :: cs).takeWhile (fun x => !isDelim x))
        ⟨input, pos + ((input.drop pos).takeWhile isDelim).length
          + ((c :: cs).takeWhile (fun x => !isDelim x)).length⟩ := by
  have hc : isDelim c = false := dropWhile_head_false h
  have hk_le : ((input.drop pos).takeWhile isDelim).length ≤ (input.drop pos).length :=
    (List.takeWhile_prefix isDelim).length_le
  have hlendrop : (input.drop pos).length = input.length - pos := List.length_drop _ _
  have hk2 : pos + ((input.drop pos).takeWhile isDelim).length ≤ input.length := by omega
  have hdrop : input.drop (pos + ((input.drop pos).takeWhile isDelim).length) = c :: cs := by
    rw [← List.drop_drop, drop_length_takeWhile, h]
  have hmem : ∀ x ∈ c :: cs, x.utf8Size = 1 := by
    intro x hx
    have hx2 : x ∈ input.drop (pos + ((input.drop pos).takeWhile isDelim).length) := by
      rw [hdrop]
      exact hx
    exact hA x (List.drop_subset _ _ hx2)
  have hcnt_le : ((c :: cs).takeWhile (fun x => !isDelim x)).length ≤ (c :: cs).length :=
    (List.takeWhile_prefix _).length_le
  have hcount : 0 < ((c :: cs).takeWhile (fun x => !isDelim x)).length := by
    simp [List.takeWhile_cons, hc]
  simp only [Tokenizer.next, byteSuffix_ascii input hA pos hpos, tokLoop_zero, h]
  simp only [gt_iff_lt, hcount, if_true,
    byteSuffix_ascii input hA
      (pos + ((input.drop pos).takeWhile isDelim).length) hk2, hdrop,
    bytePrefix_ascii (c :: cs) hmem
      ((c :: cs).takeWhile (fun x => !isDelim x)).length hcnt_le,
    take_length_takeWhile]

theorem specTokens_nil : specTokens [] = [] := by
  rw [specTokens, tokSpec.eq_def]

theorem specTokens_cons_delim {c : Char} (cs : List Char) (h : isDelim c = true) :
    specTokens (c :: cs) = specTokens cs := by
  rw [specTokens, tokSpec.eq_def]
  simp [h]

theorem specTokens_cons_tok {c : Char} (cs : List Char) (h : isDelim c = false) :
    specTokens (c :: cs) =
      (c :: cs.takeWhile (fun x => !isDelim x)) ::
        specTokens (cs.dropWhile (fun x => !isDelim x)) := by
  rw [specTokens, tokSpec.eq_def]
  simp [h]

theorem specTokens_dropWhile (l : List Char) :
    specTokens (l.dropWhile isDelim) = specTokens l := by
  induction l with
  | nil => simp
  | cons c cs ih =>
    by_cases hc : isDelim c
    · rw [List.dropWhile_cons, if_pos hc, ih, specTokens_cons_delim cs hc]
    · rw [List.dropWhile_cons, if_neg hc]

theorem tokenizeAux_spec (fuel : Nat) :
    ∀ (input : List Char) (pos : Nat), (∀ c ∈ input, c.utf8Size = 1) →
      pos ≤ input.length → input.length - pos < fuel →
      tokenizeAux fuel ⟨input, pos⟩ = .ok (specTokens (input.drop pos)) := by
  induction fuel with
  | zero => intro input pos _ _ h; omega
  | succ fuel ih =>
    intro input pos hA hpos h
    cases hD : (input.drop pos).dropWhile isDelim with
    | nil =>
      rw [tokenizeAux, tokenizer_next_done input pos hA hpos hD, ← specTokens_dropWhile,
        hD, specTokens_nil]
    | cons c cs =>
      have hc : isDelim c = false := dropWhile_head_false hD
      have hq : (fun x => !isDelim x) c = true := by simp [hc]
      rw [tokenizeAux, tokenizer_next_tok input pos c cs hA hpos hD]
      simp only []
      have hlen : (input.drop pos).length = input.length - pos := List.length_drop _ _
      have hk_le : ((input.drop pos).takeWhile isDelim).length ≤ (input.drop pos).length :=
        (List.takeWhile_prefix isDelim).length_le
      have hsplit : ((input.drop pos).takeWhile isDelim).length
          + ((input.drop pos).dropWhile isDelim).length = (input.drop pos).length := by
        conv_rhs => rw [← List.takeWhile_append_dropWhile (p := isDelim) (l := input.drop pos)]
        rw [List.length_append]
      have hDlen : ((input.drop pos).dropWhile isDelim).length = cs.length + 1 := by
        rw [hD]
        rfl
      have hcnt_le : ((c :: cs).takeWhile (fun x => !isDelim x)).length ≤ cs.length + 1 := by
        have hpre := (List.takeWhile_prefix (l := c :: cs) (fun x => !isDelim x)).length_le
        simpa using hpre
      have hcount : 0 < ((c :: cs).takeWhile (fun x => !isDelim x)).length := by
        simp [List.takeWhile_cons, hc]
      have hpos2 : input.drop
          (pos + ((input.drop pos).takeWhile isDelim).length
            + ((c :: cs).takeWhile (fun x => !isDelim x)).length) =
          cs.dropWhile (fun x => !isDelim x) := by
        rw [← List.drop_drop, ← List.drop_drop, drop_length_takeWhile, hD,
          List.takeWhile_cons, if_pos hq]
        show List.drop (cs.takeWhile (fun x => !isDelim x)).length.succ (c :: cs) = _
        rw [List.drop_succ_cons, drop_length_takeWhile]
      have hpos3 : pos + ((input.drop pos).takeWhile isDelim).length
          + ((c :: cs).takeWhile (fun x => !isDelim x)).length ≤ input.length := by
        omega
      have hfuel : input.length -
          (pos + ((input.drop pos).takeWhile isDelim).length
            + ((c :: cs).takeWhile (fun x => !isDelim x)).length) < fuel := by
        omega
      rw [ih input _ hA hpos3 hfuel, hpos2, ← specTokens_dropWhile (input.drop pos), hD,
        specTokens_cons_tok cs hc, List.takeWhile_cons, if_pos hq]

/-- On all-ASCII input the byte cursor coincides with the character
cursor, and tokenizing yields exactly the spec's maximal runs. -/
theorem tokenize_eq_specTokens (input : List Char)
    (hA : ∀ c ∈ input, c.utf8Size = 1) :
    tokenize input = .ok (specTokens input) := by
  have h := tokenizeAux_spec (utf8Len input + 1) input 0 hA (by omega)
    (by rw [utf8Len_ascii hA]; omega)
  simpa [tokenize] using h

theorem specTokens_ne_nil : ∀ (l : List Char), ∀ t ∈ specTokens l, t ≠ [] := by
  have main : ∀ (n : Nat) (l : List Char), l.length ≤ n → ∀ t ∈ specTokens l, t ≠ [] := by
    intro n
    induction n with
    | zero =>
      intro l hl
      have : l = [] := List.length_eq_zero.mp (Nat.le_zero.mp hl)
      subst this
      simp [specTokens_nil]
    | succ n ih =>
      intro l hl
      cases l with
      | nil => simp [specTokens_nil]
      | cons c cs =>
        simp only [List.length_cons] at hl
        by_cases hc : isDelim c
        · rw [specTokens_cons_delim cs hc]
          exact ih cs (by omega)
        · rw [specTokens_cons_tok cs (by simpa using hc)]
          intro t ht
          rcases List.mem_cons.mp ht with rfl | ht2
          · simp
          · have hle : (cs.dropWhile (fun x => !isDelim x)).length ≤ n :=
              le_trans (List.dropWhile_suffix _).length_le (by omega)
            exact ih _ hle t ht2
  exact fun l => main l.length l le_rfl

/-! ## Claim theorems -/

/-- C1 counterexample: the token list `[jsr, z]` makes `parse` panic (the
`.unwrap()` of the failed numeric-literal parse), so it is not the case
that every failure is returned to the caller as a structural error
value. -/
theorem parse_jsr_malformed_literal_panics :
    parse ["jsr".toList, "z".toList] = (.panic, ["z".toList]) := by decide

/-- C2 counterexample: `add r0 r1 16` parses successfully into the
immediate form with imm5 = 16, even though 16 lies outside the 5-bit
range [-16, 15]; the claimed out-of-range failure does not happen. -/
theorem parse_add_imm16_succeeds :
    parse ["add".toList, "r0".toList, "r1".toList, "16".toList] =
      (.ok (.Add, .AddImmediate 0 1 16), []) := by decide

/-- C3 counterexample: `parse_register "r3x"` succeeds with register 3:
characters after the digit are ignored, not rejected, so the claim that
every token with extra trailing characters fails is false. -/
theorem parse_register_r3x_ok : parse_register "r3x".toList = .ok 3 := by rfl

/-- C4 counterexample: `jsr -2048` does not pack the offset field to
`100 0000 0000` (1024): the two's complement of -2048 masked to 11 bits
is all zeros; moreover `jsr 2048` parses successfully instead of
failing. -/
theorem jsr_neg2048_field_wraps :
    parse ["jsr".toList, "-2048".toList] =
      (.ok (.JumpSubroutine, .JumpSubroutine (-2048)), []) ∧
    (InstructionData.JumpSubroutine (-2048)).binary &&& 0b11111111111 = 0 ∧
    ¬((InstructionData.JumpSubroutine (-2048)).binary &&& 0b11111111111 = 0b10000000000) ∧
    (parse ["jsr".toList, "2048".toList]).1 =
      .ok (.JumpSubroutine, .JumpSubroutine 2048) := by decide

/-- C4 amended: `jsr 2047` packs the offset field to `111 1111 1111`;
`jsr -2048` has its two's-complement value masked to 11 bits, packing
the offset field to `000 0000 0000`; and `jsr 2048` parses successfully
and silently wraps the offset field to `000 0000 0000` instead of
failing. -/
theorem jsr_offset_masking :
    parse ["jsr".toList, "2047".toList] =
      (.ok (.JumpSubroutine, .JumpSubroutine 2047), []) ∧
    (InstructionData.JumpSubroutine 2047).binary &&& 0b11111111111 = 0b11111111111 ∧
    parse ["jsr".toList, "-2048".toList] =
      (.ok (.JumpSubroutine, .JumpSubroutine (-2048)), []) ∧
    (InstructionData.JumpSubroutine (-2048)).binary &&& 0b11111111111 = 0 ∧
    parse ["jsr".toList, "2048".toList] =
      (.ok (.JumpSubroutine, .JumpSubroutine 2048), []) ∧
    (InstructionData.JumpSubroutine 2048).binary &&& 0b11111111111 = 0 := by decide

/-- C5 counterexample: the condition token `xyz` contains the letter
`z`, so `br xyz 0` is accepted with mask `010` (2), not with the
all-zero mask the claim asserts. -/
theorem branch_xyz_mask_nonzero :
    parse ["br".toList, "xyz".toList, "0".toList] =
      (.ok (.Branch, .Branch 2 0), []) ∧ (2 : Nat) ≠ 0 := by decide

/-- C8 counterexample: branch has arity 2, so the two-token input
`br 5` has only one operand token and fails with the
insufficient-operands error instead of succeeding. -/
theorem parse_br_5_errors :
    parse ["br".toList, "5".toList] =
      (.err "Invalid number of arguments", ["5".toList]) := by decide

/-- C8 amended: parsing `br 5` fails with the insufficient-operands
error (branch requires two operand tokens); when an offset token is
supplied, as in `br 5 0`, the condition token `5` contains no `n`, `z`
or `p` and yields the all-zero flag mask `000` without error. -/
theorem br_condition_numeral_all_zero_mask :
    parse ["br".toList, "5".toList] =
      (.err "Invalid number of arguments", ["5".toList]) ∧
    parse ["br".toList, "5".toList, "0".toList] =
      (.ok (.Branch, .Branch 0 0), []) := by decide

/-- C9 counterexample: `and r0 r0 -1` does not succeed: the third token
fails register parsing and is then given to the unsigned numeric
parser, which rejects the minus sign, and the `.unwrap()` of that
failed parse panics. -/
theorem parse_and_neg1_panics :
    parse ["and".toList, "r0".toList, "r0".toList, "-1".toList] =
      (.panic, ["r0".toList, "r0".toList, "-1".toList]) := by decide

/-- C9 amended: `and r0 r0 -1` panics (the unsigned numeric parser used
for the and/add immediate rejects a leading minus sign and the failed
parse is unwrapped); for an unsigned literal such as `and r0 r0 31` the
immediate mode is taken with dr = sr1 = 0 and the immediate masked to
the 5-bit field, giving bit 5 set and low five bits all ones. -/
theorem and_immediate_unsigned_only :
    parse ["and".toList, "r0".toList, "r0".toList, "-1".toList] =
      (.panic, ["r0".toList, "r0".toList, "-1".toList]) ∧
    parse ["and".toList, "r0".toList, "r0".toList, "31".toList] =
      (.ok (.And, .AndImmediate 0 0 31), []) ∧
    (InstructionData.AndImmediate 0 0 31).binary = 0b000000111111 := by decide

/-- C7 counterexample: the tokenizer's cursor is a byte index while its
run length is a character count, so on multibyte input it diverges from
the maximal-runs specification: `héllo` (whose second character is
two bytes wide in UTF-8) tokenizes to the two tokens `héll` and
`o` instead of the single maximal run, and an input starting with the
two-byte whitespace character U+00A0 panics on a mid-character slice. -/
theorem tokenize_multibyte_diverges :
    tokenize "héllo".toList = .ok ["héll".toList, "o".toList] ∧
    specTokens "héllo".toList = ["héllo".toList] ∧
    "héll".toList ≠ "héllo".toList ∧
    tokenize "\u00A0a".toList = .panic := by
  refine ⟨by decide, ?_, by decide, by decide⟩
  have h1 : isDelim 'h' = false := by decide
  have h2 : isDelim 'é' = false := by decide
  have h3 : isDelim 'l' = false := by decide
  have h4 : isDelim 'o' = false := by decide
  rw [show "héllo".toList = ['h', 'é', 'l', 'l', 'o'] from rfl,
    specTokens_cons_tok _ h1]
  simp [List.takeWhile_cons, List.dropWhile_cons, h2, h3, h4, specTokens_nil]

/-- C7 amended: for every input all of whose characters are single-byte
(ASCII), the tokenizer yields exactly the maximal runs of characters
that are neither whitespace nor the comma character, in left-to-right
order (`specTokens`, which collapses consecutive delimiters), no empty
token is ever produced, and the sequence is a finite list. On
multibyte input the byte-indexed cursor and the character count
disagree, splitting runs early or panicking on a mid-character
slice. -/
theorem tokenize_ascii_maximal_runs (input : List Char)
    (hA : ∀ c ∈ input, c.utf8Size = 1) :
    tokenize input = .ok (specTokens input) ∧ ∀ t ∈ specTokens input, t ≠ [] :=
  ⟨tokenize_eq_specTokens input hA, specTokens_ne_nil input⟩

/-- C7 witness: the amended theorem applied to the ASCII input
`ld r1, 5`, whose maximal runs are `ld`, `r1`, `5`. -/
theorem tokenize_ascii_maximal_runs_witness :
    tokenize "ld r1, 5".toList = .ok [['l', 'd'], ['r', '1'], ['5']] := by
  have h := (tokenize_ascii_maximal_runs "ld r1, 5".toList (by decide)).1
  rw [h, show "ld r1, 5".toList = ['l', 'd', ' ', 'r', '1', ',', ' ', '5'] from rfl]
  have d1 : isDelim 'l' = false := by decide
  have d2 : isDelim 'd' = false := by decide
  have d3 : isDelim ' ' = true := by decide
  have d4 : isDelim 'r' = false := by decide
  have d5 : isDelim '1' = false := by decide
  have d6 : isDelim ',' = true := by decide
  have d7 : isDelim '5' = false := by decide
  simp [specTokens_cons_tok, specTokens_cons_delim, specTokens_nil,
    List.takeWhile_cons, List.dropWhile_cons, d1, d2, d3, d4, d5, d6, d7]

/-- C1 amended: the parse stage is total into a result type extended
with a panic outcome; empty input, unknown mnemonics, insufficient
operands, and bad register tokens are returned as structural error
values, but a numeric-literal operand that fails numeric parsing makes
`parse` panic (the `.unwrap()` of the failed parse). A panic can occur
only after the first token has been classified as a known mnemonic and
the arity check has passed, with the stream advanced past the
mnemonic. -/
theorem parse_panic_requires_classified_mnemonic (args rem : List Token)
    (h : parse args = (.panic, rem)) :
    args ≠ [] ∧ rem = args.tail ∧
      ∃ i, Instruction.tryFrom (args.headD []) = .ok i ∧
        i.num_args ≤ args.tail.length := by
  cases args with
  | nil => simp [parse] at h
  | cons a0 rest =>
    simp only [parse] at h
    cases ht : Instruction.tryFrom a0 with
    | error e => rw [ht] at h; simp at h
    | ok instr =>
      rw [ht] at h
      simp only [] at h
      by_cases hn : instr.num_args > rest.length
      · rw [if_pos hn] at h; simp at h
      · rw [if_neg hn] at h
        cases hd : parseData instr rest with
        | ok d => rw [hd] at h; simp at h
        | err e => rw [hd] at h; simp at h
        | panic =>
          rw [hd] at h
          simp only [Prod.mk.injEq] at h
          exact ⟨by simp, h.2.symm, instr, ht, by simp only [List.tail_cons]; omega⟩

/-- C1 witness: the amended theorem applied at the concrete panicking
input `[jsr, z]`. -/
theorem parse_panic_requires_classified_mnemonic_witness :
    ["jsr".toList, "z".toList] ≠ [] ∧
      ["z".toList] = ["jsr".toList, "z".toList].tail ∧
      ∃ i, Instruction.tryFrom (["jsr".toList, "z".toList].headD []) = .ok i ∧
        i.num_args ≤ ["jsr".toList, "z".toList].tail.length :=
  parse_panic_requires_classified_mnemonic _ _ (by decide)

/-- C10: whenever `parse` returns an error after the first token was
classified as a known mnemonic, the stream has advanced past exactly
that one token and no operand token was consumed; when classification
of the first token fails (including an empty stream), the stream is
unchanged. -/
theorem parse_error_consumes_only_mnemonic (args : List Token) (e : String)
    (rem : List Token) (h : parse args = (.err e, rem)) :
    ((∃ i, Instruction.tryFrom (args.headD []) = .ok i) → rem = args.tail) ∧
    (∀ msg, Instruction.tryFrom (args.headD []) = .error msg → rem = args) := by
  cases args with
  | nil =>
    simp only [parse, Prod.mk.injEq] at h
    constructor
    · rintro ⟨i, hi⟩
      rw [show Instruction.tryFrom (([] : List Token).headD []) =
        .error "Invalid instruction" from by decide] at hi
      exact absurd hi (by simp)
    · intro msg _
      exact h.2.symm
  | cons a0 rest =>
    simp only [parse] at h
    cases ht : Instruction.tryFrom a0 with
    | error msg0 =>
      rw [ht] at h
      simp only [Prod.mk.injEq] at h
      constructor
      · rintro ⟨i, hi⟩
        simp only [List.headD_cons] at hi
        rw [ht] at hi
        exact absurd hi (by simp)
      · intro msg _
        exact h.2.symm
    | ok instr =>
      rw [ht] at h
      simp only [] at h
      have hrem : rem = rest := by
        by_cases hn : instr.num_args > rest.length
        · rw [if_pos hn] at h
          simp only [Prod.mk.injEq] at h
          exact h.2.symm
        · rw [if_neg hn] at h
          cases hd : parseData instr rest with
          | ok d => rw [hd] at h; simp at h
          | err e2 =>
            rw [hd] at h
            simp only [Prod.mk.injEq] at h
            exact h.2.symm
          | panic => rw [hd] at h; simp at h
      constructor
      · intro _
        simpa using hrem
      · intro msg hmsg
        simp only [List.headD_cons] at hmsg
        rw [ht] at hmsg
        exact absurd hmsg (by simp)

/-- C10 witness: the theorem applied to the error `parse` produces on
the single-token input `[add]` (classified mnemonic, missing
operands). -/
theorem parse_error_consumes_only_mnemonic_witness :
    ([] : List Token) = ["add".toList].tail :=
  (parse_error_consumes_only_mnemonic ["add".toList] "Invalid number of arguments" []
      (by decide)).1 ⟨.Add, by decide⟩

/-- C6: for every classified mnemonic, `parse` fails with the
insufficient-operands error exactly when fewer than `num_args` tokens
remain after the mnemonic token, and on success it advances the token
stream past exactly `num_args` tokens beyond the mnemonic, regardless
of which addressing-mode branch was taken internally. -/
theorem parse_arity_exact (a0 : Token) (rest : List Token) (i : Instruction)
    (h : Instruction.tryFrom a0 = .ok i) :
    ((parse (a0 :: rest)).1 = .err "Invalid number of arguments" ↔
      rest.length < i.num_args) ∧
    (∀ p rem, parse (a0 :: rest) = (.ok p, rem) → rem = rest.drop i.num_args) := by
  simp only [parse, h]
  by_cases hn : i.num_args > rest.length
  · rw [if_pos hn]
    constructor
    · simpa using hn
    · intro p rem hp
      simp at hp
  · rw [if_neg hn]
    cases hd : parseData i rest with
    | ok d =>
      constructor
      · constructor
        · intro hcon; exact absurd hcon (by simp)
        · intro hlt; omega
      · intro p rem hp
        simp only [Prod.mk.injEq] at hp
        exact hp.2.symm
    | err e2 =>
      have he : e2 = "Invalid register" := parseData_err hd
      subst he
      constructor
      · constructor
        · intro hcon
          simp only [PResult.err.injEq] at hcon
          exact absurd hcon (by decide)
        · intro hlt; omega
      · intro p rem hp
        simp at hp
    | panic =>
      constructor
      · constructor
        · intro hcon; exact absurd hcon (by simp)
        · intro hlt; omega
      · intro p rem hp
        simp at hp

/-- C6 witness: the single-token input `[add]` (arity 3, zero operand
tokens) produces exactly the insufficient-operands error. -/
theorem parse_arity_exact_witness :
    (parse ["add".toList]).1 = .err "Invalid number of arguments" :=
  (parse_arity_exact "add".toList [] .Add (by decide)).1.mpr (by decide)

/-- C3 amended: `parse_register` succeeds exactly on tokens whose first
character is `r` or `R` and whose second character is a decimal digit
in [0, 7], yielding that digit — characters after the second are
ignored rather than rejected. Every other token fails with the
invalid-register error. -/
theorem parse_register_characterization (s : Token) :
    (∀ d, parse_register s = .ok d ↔
      ∃ c0 c1 rest, s = c0 :: c1 :: rest ∧ (c0 = 'r' ∨ c0 = 'R') ∧
        to_digit10 c1 = some d ∧ d < 8) ∧
    ((∃ d, parse_register s = .ok d) ∨ parse_register s = .error "Invalid register") := by
  rcases s with _ | ⟨c0, _ | ⟨c1, rest⟩⟩
  · exact ⟨fun d => by simp [parse_register], Or.inr (by simp [parse_register])⟩
  · exact ⟨fun d => by simp [parse_register], Or.inr (by simp [parse_register])⟩
  · constructor
    · intro d
      constructor
      · intro h
        by_cases hr : c0 = 'r' ∨ c0 = 'R'
        · simp only [parse_register, if_pos hr] at h
          cases hd : to_digit10 c1 with
          | none => rw [hd] at h; exact absurd h (by simp)
          | some d0 =>
            rw [hd] at h
            simp only [] at h
            by_cases hlt : d0 < 8
            · rw [if_pos hlt] at h
              simp only [Except.ok.injEq] at h
              subst h
              exact ⟨c0, c1, rest, rfl, hr, hd, hlt⟩
            · rw [if_neg hlt] at h
              exact absurd h (by simp)
        · simp only [parse_register, if_neg hr] at h
          exact absurd h (by simp)
      · rintro ⟨c0', c1', rest', heq, hr, hd, hlt⟩
        injection heq with h0 heq
        injection heq with h1 _
        subst h0; subst h1
        simp [parse_register, hr, hd, hlt]
    · by_cases hr : c0 = 'r' ∨ c0 = 'R'
      · cases hd : to_digit10 c1 with
        | none => exact Or.inr (by simp [parse_register, hr, hd])
        | some d0 =>
          by_cases hlt : d0 < 8
          · exact Or.inl ⟨d0, by simp [parse_register, hr, hd, hlt]⟩
          · exact Or.inr (by simp [parse_register, hr, hd, hlt])
      · exact Or.inr (by simp [parse_register, hr])

/-- C2 amended: for add (and likewise and), when the third operand
token fails register parsing it is parsed as an unsigned numeric
literal within the i8 type range; a value outside the 5-bit range
[-16, 15] but within that type range — such as 16 — is accepted rather
than rejected (masking to 5 bits happens only at encode time), and a
token that fails numeric parsing altogether makes `parse` panic rather
than return a structural error. -/
theorem add_and_third_operand_fallback :
    (∀ (t0 t1 t : Token) (dr sr1 : Nat) (v : Int) (rest : List Token),
        parse_register t0 = .ok dr → parse_register t1 = .ok sr1 →
        parse_register t = .error "Invalid register" → parse_uint_i8 t = some v →
        parse ("add".toList :: t0 :: t1 :: t :: rest) =
          (.ok (.Add, .AddImmediate dr sr1 v), rest)) ∧
    (∀ (t0 t1 t : Token) (dr sr1 : Nat) (rest : List Token),
        parse_register t0 = .ok dr → parse_register t1 = .ok sr1 →
        parse_register t = .error "Invalid register" → parse_uint_i8 t = none →
        parse ("add".toList :: t0 :: t1 :: t :: rest) =
          (.panic, t0 :: t1 :: t :: rest)) ∧
    parse ["and".toList, "r0".toList, "r1".toList, "16".toList] =
      (.ok (.And, .AndImmediate 0 1 16), []) := by
  refine ⟨?_, ?_, by decide⟩
  · intro t0 t1 t dr sr1 v rest h0 h1 h2 h3
    have ht : Instruction.tryFrom "add".toList = .ok Instruction.Add := by decide
    have hg : ¬(Instruction.num_args Instruction.Add > (t0 :: t1 :: t :: rest).length) := by
      simp only [List.length_cons, Instruction.num_args]
      omega
    simp only [parse, ht, if_neg hg, parseData, List.getD_cons_zero, List.getD_cons_succ,
      regBind, h0, h1, h2, unwrapBind, h3, Instruction.num_args]
    simp
  · intro t0 t1 t dr sr1 rest h0 h1 h2 h3
    have ht : Instruction.tryFrom "add".toList = .ok Instruction.Add := by decide
    have hg : ¬(Instruction.num_args Instruction.Add > (t0 :: t1 :: t :: rest).length) := by
      simp only [List.length_cons, Instruction.num_args]
      omega
    simp only [parse, ht, if_neg hg, parseData, List.getD_cons_zero, List.getD_cons_succ,
      regBind, h0, h1, h2, unwrapBind, h3, Instruction.num_args]
    rw [if_neg (by simp only [List.length_cons]; omega)]

/-- C2 witness: the general fallback applied at the concrete input
`add r0 r1 16`, whose literal parses to 16 (outside the 5-bit range). -/
theorem add_and_third_operand_fallback_witness :
    parse ["add".toList, "r0".toList, "r1".toList, "16".toList] =
      (.ok (.Add, .AddImmediate 0 1 16), []) :=
  add_and_third_operand_fallback.1 "r0".toList "r1".toList "16".toList 0 1 16 []
    (by rfl) (by rfl) (by rfl) (by rfl)

/-- C5 amended: for every branch condition token, each of the
characters `n`, `z`, `p` occurring anywhere in the token independently
sets the corresponding flag bit, and a token containing none of them
yields an all-zero mask without error; `nzp` yields 111, `zn` yields
110, and `xyz` — which contains `z` — is accepted with mask 010 (not
all-zero). -/
theorem branch_mask_membership (cond off : Token) (v : Int) (rest : List Token)
    (h : parse_int_i16 off = some v) :
    parse ("br".toList :: cond :: off :: rest) =
      (.ok (.Branch, .Branch (branchNzp cond) v), rest) ∧
    ((branchNzp cond).testBit 2 = cond.contains 'n') ∧
    ((branchNzp cond).testBit 1 = cond.contains 'z') ∧
    ((branchNzp cond).testBit 0 = cond.contains 'p') ∧
    branchNzp "nzp".toList = 7 ∧ branchNzp "zn".toList = 6 ∧
    branchNzp "xyz".toList = 2 := by
  refine ⟨?_, ?_, ?_, ?_, by decide, by decide, by decide⟩
  · have ht : Instruction.tryFrom "br".toList = .ok Instruction.Branch := by decide
    have hg : ¬(Instruction.num_args Instruction.Branch > (cond :: off :: rest).length) := by
      simp only [List.length_cons, Instruction.num_args]
      omega
    simp only [parse, ht, if_neg hg, parseData, List.getD_cons_zero, List.getD_cons_succ,
      unwrapBind, h, Instruction.num_args]
    simp
  · by_cases hn : 'n' ∈ cond <;> by_cases hz : 'z' ∈ cond <;>
      by_cases hp : 'p' ∈ cond <;> simp [branchNzp, hn, hz, hp] <;> decide
  · by_cases hn : 'n' ∈ cond <;> by_cases hz : 'z' ∈ cond <;>
      by_cases hp : 'p' ∈ cond <;> simp [branchNzp, hn, hz, hp] <;> decide
  · by_cases hn : 'n' ∈ cond <;> by_cases hz : 'z' ∈ cond <;>
      by_cases hp : 'p' ∈ cond <;> simp [branchNzp, hn, hz, hp]

/-- C5 witness: the amended theorem applied at `br zn -1`, giving mask
110 (the `zn` spelling sets the same bits as `nz`). -/
theorem branch_mask_membership_witness :
    parse ["br".toList, "zn".toList, "-1".toList] =
      (.ok (.Branch, .Branch (branchNzp "zn".toList) (-1)), []) :=
  (branch_mask_membership "zn".toList "-1".toList (-1) [] (by rfl)).1

end LC3
